import Mathlib

/-!
Shallow embedding of the prolink-typescript binary field codec
(src/unnamed/part_000, a TypeScript module built on Node `Buffer`) and of
the track de-duplication handler in src/src/cli/index.ts, together with a
spec-modelled mixstatus arbitration engine.

Modelling conventions:
* A Node `Buffer` is a `List Nat` of byte values.
* JavaScript strings are sequences of UTF-16 code units, modelled as
  `List Nat` of values below 2 ^ 16.
* Node buffer read/write range failures (`ERR_OUT_OF_RANGE`, thrown by
  `writeUIntBE` on out-of-range values and by `readUIntBE` on a too-short
  buffer) are the errors the spec calls `MalformedField`; `Buffer.swap16`
  on an odd-length buffer throws `ERR_INVALID_BUFFER_SIZE`.
* The byte stream consumed by `readField` is the external collaborator of
  spec section 6 ("read exactly N bytes or fail"): it is modelled as the
  list of bytes remaining, and a read of `n` bytes succeeds exactly when
  `n` bytes remain, otherwise it is the failure the spec calls
  `TruncatedStream` (in the source, the non-`Buffer` result thrown by the
  `read` helper).
-/

namespace Prolink

/-- Errors raised by the codec, one constructor per distinct throw site of
the source (see the module header for the mapping to Node errors). -/
inductive FieldError
  | truncatedStream
  | unknownFieldType
  | unexpectedFieldType
  | malformedField
  | invalidBufferSize
deriving DecidableEq, Repr

/-- `enum FieldType` of the source: the five wire tags. -/
inductive FieldType
  | UInt8
  | UInt16
  | UInt32
  | String
  | Binary
deriving DecidableEq, Repr

/-- The numeric value of each `FieldType` enum member. -/
def FieldType.tagByte : FieldType → Nat
  | .UInt8 => 0x0f
  | .UInt16 => 0x10
  | .UInt32 => 0x11
  | .String => 0x26
  | .Binary => 0x14

/-- `type NumberFieldType`, the union of the three integer tags. -/
inductive NumberFieldType
  | UInt8
  | UInt16
  | UInt32
deriving DecidableEq, Repr

def NumberFieldType.toFieldType : NumberFieldType → FieldType
  | .UInt8 => .UInt8
  | .UInt16 => .UInt16
  | .UInt32 => .UInt32

/-- The byte widths of `numberBufferInfo` (1, 2 and 4). -/
def NumberFieldType.bytes : NumberFieldType → Nat
  | .UInt8 => 1
  | .UInt16 => 2
  | .UInt32 => 4

/-- Big-endian bytes of a value, `k` bytes wide, most significant first
(the layout written by `writeUInt8` / `writeUInt16BE` / `writeUInt32BE`). -/
def beBytes : Nat → Nat → List Nat
  | 0, _ => []
  | k + 1, v => v / 256 ^ k % 256 :: beBytes k v

def beReadAux (acc : Nat) : List Nat → Nat
  | [] => acc
  | b :: rest => beReadAux (acc * 256 + b) rest

/-- Big-endian value of a byte list (the value returned by `readUInt8` /
`readUInt16BE` / `readUInt32BE`). -/
def beRead (l : List Nat) : Nat := beReadAux 0 l

/-- The data model: a decoded field.  `number` keeps the numeric value and
the raw data buffer, `string` keeps the decoded UTF-16 code units and the
raw (big-endian) data buffer, `binary` is its own data. -/
inductive Field
  | number (t : NumberFieldType) (value : Nat) (data : List Nat)
  | string (value : List Nat) (data : List Nat)
  | binary (data : List Nat)
deriving DecidableEq, Repr

/-- `parseNumber` of the source.  The `number | Buffer` union argument is a
sum.  For a number, `writeUIntBE` throws `ERR_OUT_OF_RANGE` when the value
exceeds the width (a `Nat` is never negative); for a buffer, `readUIntBE`
reads the big-endian value of the FIRST `bytes` bytes and throws only when
the buffer is shorter than that — the buffer itself, however long, is kept
as the field data. -/
def parseNumber (value : Sum Nat (List Nat)) (t : NumberFieldType) :
    Except FieldError (Nat × List Nat) :=
  match value with
  | .inl v =>
      if v < 256 ^ t.bytes then .ok (v, beBytes t.bytes v)
      else .error .malformedField
  | .inr buf =>
      if t.bytes ≤ buf.length then .ok (beRead (buf.take t.bytes), buf)
      else .error .malformedField

/-- The constructor of the classes produced by `makeNumberField`. -/
def makeNumberField (t : NumberFieldType) (value : Sum Nat (List Nat)) :
    Except FieldError Field :=
  (parseNumber value t).map fun p => .number t p.1 p.2

/-- Big-endian UTF-16 encoding of a list of code units:
`Buffer.from(value, 'utf16le').swap16()` writes, per unit, the high byte
then the low byte. -/
def utf16beEncode : List Nat → List Nat
  | [] => []
  | u :: rest => u / 256 :: u % 256 :: utf16beEncode rest

/-- Big-endian UTF-16 decoding of an (even-length) byte list:
`Buffer.from(value).swap16().toString('utf16le')` combines each byte pair
big-endian into one code unit. -/
def utf16beDecode : List Nat → List Nat
  | b0 :: b1 :: rest => (b0 * 256 + b1) :: utf16beDecode rest
  | _ => []

/-- The `String` class constructor on the `string` branch of its union
argument: encodes the value and keeps the encoding as data. -/
def stringFromString (units : List Nat) : Field :=
  .string units (utf16beEncode units)

/-- The `String` class constructor on the `Buffer` branch: `swap16` throws
`ERR_INVALID_BUFFER_SIZE` on an odd-length buffer, otherwise the value is
the big-endian UTF-16 decoding and the data is the buffer unchanged. -/
def stringFromBuffer (buf : List Nat) : Except FieldError Field :=
  if buf.length % 2 = 0 then .ok (.string (utf16beDecode buf) buf)
  else .error .invalidBufferSize

/-- The `Binary` class constructor: value and data are the buffer. -/
def binaryFromBuffer (buf : List Nat) : Field := .binary buf

/-- `makeVariableBuffer`: tag byte, 4-byte big-endian payload length, then
the payload.  `writeUInt32BE` throws when the length does not fit 32 bits,
modelled as `none`. -/
def makeVariableBuffer (t : FieldType) (fieldData : List Nat) :
    Option (List Nat) :=
  if fieldData.length < 2 ^ 32 then
    some (t.tagByte :: beBytes 4 fieldData.length ++ fieldData)
  else none

/-- The `buffer` getters: the full wire bytes of a field. -/
def Field.buffer : Field → Option (List Nat)
  | .number t _ d => some (t.toFieldType.tagByte :: d)
  | .string _ d => makeVariableBuffer .String d
  | .binary d => makeVariableBuffer .Binary d

/-- Decoding a payload under a tag: `new fieldMap[tag](payload)`. -/
def decodeField (t : FieldType) (payload : List Nat) : Except FieldError Field :=
  match t with
  | .UInt8 => makeNumberField .UInt8 (.inr payload)
  | .UInt16 => makeNumberField .UInt16 (.inr payload)
  | .UInt32 => makeNumberField .UInt32 (.inr payload)
  | .String => stringFromBuffer payload
  | .Binary => .ok (binaryFromBuffer payload)

/-- `fieldMap`: the leading byte selects a field class (identified here by
its `FieldType`), unknown bytes select nothing (`undefined`). -/
def fieldClassOf (b : Nat) : Option FieldType :=
  if b = 0x0f then some .UInt8
  else if b = 0x10 then some .UInt16
  else if b = 0x11 then some .UInt32
  else if b = 0x26 then some .String
  else if b = 0x14 then some .Binary
  else none

/-- The static `type` property of each field class.  The source's `String`
class writes `type = FieldType.String` WITHOUT the `static` keyword
(unlike `BaseField`'s declaration and every other field class), so the
static lookup `Field.type` used by `readField` yields `undefined` for it:
modelled as `none`. -/
def staticTypeOf : FieldType → Option FieldType
  | .String => none
  | .UInt8 => some .UInt8
  | .UInt16 => some .UInt16
  | .UInt32 => some .UInt32
  | .Binary => some .Binary

/-- The static `bytesToRead` property: a fixed byte count for the number
classes, `false` (modelled `none`) for the variable-length classes. -/
def bytesToReadOf : FieldType → Option Nat
  | .UInt8 => some 1
  | .UInt16 => some 2
  | .UInt32 => some 4
  | .String => none
  | .Binary => none

/-- The `read` helper over the spec-section-6 byte source: succeeds with
exactly `bytes` bytes when they remain, and otherwise fails with the
error the spec calls `TruncatedStream`.  The pair threads the remaining
stream (unchanged on failure). -/
def read (s : List Nat) (bytes : Nat) :
    Except FieldError (List Nat) × List Nat :=
  if bytes ≤ s.length then (.ok (s.take bytes), s.drop bytes)
  else (.error .truncatedStream, s)

/-- The tail of `readField` after the tag has been read and checked: read
the fixed byte count, or a 4-byte big-endian length then that many bytes,
and construct the field from the payload. -/
def readFieldRest (F : FieldType) (s1 : List Nat) :
    Except FieldError Field × List Nat :=
  match bytesToReadOf F with
  | some n =>
      match read s1 n with
      | (.error e, s2) => (.error e, s2)
      | (.ok payload, s2) => (decodeField F payload, s2)
  | none =>
      match read s1 4 with
      | (.error e, s2) => (.error e, s2)
      | (.ok lengthData, s2) =>
          match read s2 (beRead lengthData) with
          | (.error e, s3) => (.error e, s3)
          | (.ok payload, s3) => (decodeField F payload, s3)

/-- `readField`: read one tag byte, look the class up in `fieldMap` (an
unknown byte leaves `Field` `undefined`, whose ensuing property access is
the failure the spec calls `UnknownFieldType`), apply the
`expect && Field.type !== expect` check, then read the payload. -/
def readField (s : List Nat) (expect : Option FieldType) :
    Except FieldError Field × List Nat :=
  match read s 1 with
  | (.error e, s1) => (.error e, s1)
  | (.ok typeData, s1) =>
      match fieldClassOf (typeData.headD 0) with
      | none => (.error .unknownFieldType, s1)
      | some F =>
          match expect with
          | none => readFieldRest F s1
          | some e =>
              if staticTypeOf F = some e then readFieldRest F s1
              else (.error .unexpectedFieldType, s1)

/-! The `lastTid` de-duplication handler of src/src/cli/index.ts: a `Map`
from device id to the last emitted track id, modelled as an association
list.  `Map.get` on an absent key is `undefined`, which compares unequal
to every track id, so an absent key behaves like `none`. -/

/-- `lastTid.get(deviceId)`. -/
def lastTidGet (deviceId : Nat) : List (Nat × Nat) → Option Nat
  | [] => none
  | (d, t) :: rest => if d = deviceId then some t else lastTidGet deviceId rest

/-- `lastTid.set(deviceId, trackId)`. -/
def lastTidSet (deviceId trackId : Nat) : List (Nat × Nat) → List (Nat × Nat)
  | [] => [(deviceId, trackId)]
  | (d, t) :: rest =>
      if d = deviceId then (d, trackId) :: rest
      else (d, t) :: lastTidSet deviceId trackId rest

/-- One run of the status handler: return early (no emission) when the
recorded track id for the device equals the incoming one, otherwise record
it and emit.  The `Bool` is whether a track-loaded emission happened. -/
def statusHandler (m : List (Nat × Nat)) (deviceId trackId : Nat) :
    List (Nat × Nat) × Bool :=
  if lastTidGet deviceId m = some trackId then (m, false)
  else (lastTidSet deviceId trackId m, true)

/-- Feed a sequence of `(deviceId, trackId)` statuses through the handler,
collecting the emissions in order. -/
def runStatuses (m : List (Nat × Nat)) : List (Nat × Nat) → List (Nat × Nat)
  | [] => []
  | st :: rest =>
      (if (statusHandler m st.1 st.2).2 then [st] else []) ++
        runStatuses (statusHandler m st.1 st.2).1 rest

/-! A mixstatus arbitration engine state machine. -/

/-- Modelled from the spec: the per-device state kept by the mixstatus
engine (src/mixstatus, absent from the sources) — whether the device is
currently a `Candidate` (playing and on-air) and whether it holds the
`master` role. -/
structure DevSt where
  candidate : Bool
  isMaster : Bool
deriving DecidableEq, Repr

/-- Modelled from the spec: `EngineState`, a mapping from device id to
per-device engine state, created empty on engine construction. -/
structure EngineState where
  devices : List (Nat × DevSt)
deriving DecidableEq, Repr

def initialEngineState : EngineState := ⟨[]⟩

def devLookup (d : Nat) : List (Nat × DevSt) → Option DevSt
  | [] => none
  | p :: rest => if p.1 = d then some p.2 else devLookup d rest

/-- Modelled from the spec: record a device's candidate flag from an
incoming status (`isPlaying && isOnAir`); a first status for a device adds
it with no master role. -/
def setCandidate (d : Nat) (c : Bool) : List (Nat × DevSt) → List (Nat × DevSt)
  | [] => [(d, ⟨c, false⟩)]
  | p :: rest =>
      if p.1 = d then (p.1, ⟨c, p.2.isMaster⟩) :: rest
      else p :: setCandidate d c rest

/-- Modelled from the spec: hand the `master` role to device `d`,
withdrawing it from every other device (hand-off is immediate). -/
def promote (d : Nat) (l : List (Nat × DevSt)) : List (Nat × DevSt) :=
  l.map fun p => (p.1, ⟨p.2.candidate, p.1 == d⟩)

/-- Modelled from the spec: the grace window elapsed with no eligible
replacement — the master role is withdrawn from `d`. -/
def demote (d : Nat) (l : List (Nat × DevSt)) : List (Nat × DevSt) :=
  l.map fun p => if p.1 = d then (p.1, ⟨p.2.candidate, false⟩) else p

/-- Modelled from the spec: the transitions of the mixstatus engine.
`handleStatus` records a status (no mastership change by itself);
`confirmMaster` fires when a device's confirmation window elapses while it
is still a candidate; `graceTimeout` fires when the master has dropped out
of candidate state and the grace window elapses with no replacement. -/
inductive EngineStep : EngineState → EngineState → Prop
  | handleStatus (s : EngineState) (d : Nat) (isPlaying isOnAir : Bool) :
      EngineStep s ⟨setCandidate d (isPlaying && isOnAir) s.devices⟩
  | confirmMaster (s : EngineState) (d : Nat)
      (hc : (devLookup d s.devices).map DevSt.candidate = some true) :
      EngineStep s ⟨promote d s.devices⟩
  | graceTimeout (s : EngineState) (d : Nat)
      (hm : (devLookup d s.devices).map DevSt.isMaster = some true)
      (hc : (devLookup d s.devices).map DevSt.candidate = some false) :
      EngineStep s ⟨demote d s.devices⟩

/-- The reachable engine states: those produced from the initial state by
any sequence of statuses and timer firings. -/
def Reachable (s : EngineState) : Prop :=
  Relation.ReflTransGen EngineStep initialEngineState s

/-- How many devices currently hold the `master` role. -/
def masterCount (s : EngineState) : Nat :=
  (s.devices.filter fun p => p.2.isMaster).length

theorem beBytes_length (k v : Nat) : (beBytes k v).length = k := by
  induction k generalizing v with
  | zero => rfl
  | succ k ih => simp [beBytes, ih]

theorem beReadAux_beBytes (k v acc : Nat) :
    beReadAux acc (beBytes k v) = acc * 256 ^ k + v % 256 ^ k := by
  induction k generalizing acc with
  | zero => simp [beBytes, beReadAux, Nat.mod_one]
  | succ k ih =>
      rw [beBytes, beReadAux, ih]
      have h256 : (256 : Nat) ^ (k + 1) = 256 ^ k * 256 := by ring
      have hmod : v % 256 ^ (k + 1) = v % 256 ^ k + 256 ^ k * (v / 256 ^ k % 256) := by
        rw [h256, Nat.mul_comm (256 ^ k) 256]
        calc v % (256 * 256 ^ k)
            = v % (256 ^ k * 256) := by rw [Nat.mul_comm]
          _ = v % 256 ^ k + 256 ^ k * (v / 256 ^ k % 256) := Nat.mod_mul
      rw [hmod]; ring

theorem beRead_beBytes (k v : Nat) (h : v < 256 ^ k) :
    beRead (beBytes k v) = v := by
  rw [beRead, beReadAux_beBytes, Nat.zero_mul, Nat.zero_add, Nat.mod_eq_of_lt h]

theorem utf16beEncode_length (v : List Nat) :
    (utf16beEncode v).length = 2 * v.length := by
  induction v with
  | nil => rfl
  | cons u rest ih => simp [utf16beEncode, ih]; ring

theorem utf16_decode_encode (v : List Nat) :
    utf16beDecode (utf16beEncode v) = v := by
  induction v with
  | nil => rfl
  | cons u rest ih =>
      rw [utf16beEncode, utf16beDecode, ih, Nat.mul_comm, Nat.div_add_mod]

theorem read_cons_one (b : Nat) (s : List Nat) :
    read (b :: s) 1 = (.ok [b], s) := by
  rw [read, if_pos (show 1 ≤ (b :: s).length from Nat.succ_le_succ (Nat.zero_le _))]
  rfl

theorem read_append (a b : List Nat) :
    read (a ++ b) a.length = (.ok a, b) := by
  rw [read, if_pos (by simp), List.take_left, List.drop_left]

theorem read_exact (a : List Nat) : read a a.length = (.ok a, []) := by
  have h := read_append a []
  rwa [List.append_nil] at h

theorem read_short (a : List Nat) (n : Nat) (h : a.length < n) :
    read a n = (.error .truncatedStream, a) := by
  rw [read, if_neg (Nat.not_le.mpr h)]

theorem decodeField_num (t : NumberFieldType) (p : List Nat) :
    decodeField t.toFieldType p = makeNumberField t (.inr p) := by
  cases t <;> rfl

theorem makeNumberField_inr (t : NumberFieldType) (p : List Nat) :
    makeNumberField t (.inr p) =
      if t.bytes ≤ p.length then .ok (.number t (beRead (p.take t.bytes)) p)
      else .error .malformedField := by
  rw [makeNumberField, parseNumber]
  split <;> rfl

theorem makeNumberField_inl (t : NumberFieldType) (v : Nat) :
    makeNumberField t (.inl v) =
      if v < 256 ^ t.bytes then .ok (.number t v (beBytes t.bytes v))
      else .error .malformedField := by
  rw [makeNumberField, parseNumber]
  split <;> rfl

theorem fieldClassOf_tagByte (t : FieldType) :
    fieldClassOf t.tagByte = some t := by
  cases t <;> rfl

theorem readField_cons (b : Nat) (s : List Nat) (expect : Option FieldType) :
    readField (b :: s) expect =
      match fieldClassOf b with
      | none => (.error .unknownFieldType, s)
      | some F =>
          match expect with
          | none => readFieldRest F s
          | some e =>
              if staticTypeOf F = some e then readFieldRest F s
              else (.error .unexpectedFieldType, s) := by
  rw [readField, read_cons_one]
  rfl

theorem lastTidGet_set_self (d tid : Nat) (m : List (Nat × Nat)) :
    lastTidGet d (lastTidSet d tid m) = some tid := by
  induction m with
  | nil => simp [lastTidSet, lastTidGet]
  | cons p rest ih =>
      obtain ⟨k, t⟩ := p
      by_cases hk : k = d
      · subst hk; simp [lastTidSet, lastTidGet]
      · simp [lastTidSet, lastTidGet, hk, ih]

theorem runStatuses_unchanged (d tid : Nat) (n : Nat) (m : List (Nat × Nat))
    (h : lastTidGet d m = some tid) :
    runStatuses m (List.replicate n (d, tid)) = [] := by
  induction n with
  | zero => rfl
  | succ n ih =>
      rw [List.replicate_succ, runStatuses]
      simp only [statusHandler, h, if_pos rfl]
      simpa using ih

theorem mem_keys_setCandidate (x d : Nat) (c : Bool) (l : List (Nat × DevSt)) :
    x ∈ (setCandidate d c l).map Prod.fst ↔ x ∈ l.map Prod.fst ∨ x = d := by
  induction l with
  | nil => simp [setCandidate]
  | cons p rest ih =>
      by_cases hk : p.1 = d
      · rw [setCandidate, if_pos hk]
        subst hk
        simp only [List.map_cons, List.mem_cons]
        tauto
      · rw [setCandidate, if_neg hk]
        simp only [List.map_cons, List.mem_cons, ih]
        tauto

theorem nodup_keys_setCandidate (d : Nat) (c : Bool) (l : List (Nat × DevSt))
    (h : (l.map Prod.fst).Nodup) :
    ((setCandidate d c l).map Prod.fst).Nodup := by
  induction l with
  | nil => simp [setCandidate]
  | cons p rest ih =>
      rw [List.map_cons, List.nodup_cons] at h
      by_cases hk : p.1 = d
      · rw [setCandidate, if_pos hk, List.map_cons, List.nodup_cons]
        exact h
      · rw [setCandidate, if_neg hk, List.map_cons, List.nodup_cons]
        refine ⟨fun hmem => ?_, ih h.2⟩
        rcases (mem_keys_setCandidate p.1 d c rest).mp hmem with hin | heq
        · exact h.1 hin
        · exact hk heq

theorem masterCount_setCandidate (d : Nat) (c : Bool) (l : List (Nat × DevSt)) :
    masterCount ⟨setCandidate d c l⟩ = masterCount ⟨l⟩ := by
  simp only [masterCount]
  induction l with
  | nil => simp [setCandidate]
  | cons p rest ih =>
      by_cases hk : p.1 = d
      · rw [setCandidate, if_pos hk]
        rcases p with ⟨k, ⟨pc, pm⟩⟩
        rcases pm <;> simp [List.filter_cons]
      · rw [setCandidate, if_neg hk]
        simp only [List.filter_cons]
        rcases hb : p.2.isMaster <;> simp [hb, ih]

theorem keys_promote (d : Nat) (l : List (Nat × DevSt)) :
    (promote d l).map Prod.fst = l.map Prod.fst := by
  simp [promote, List.map_map, Function.comp_def]

theorem keys_demote (d : Nat) (l : List (Nat × DevSt)) :
    (demote d l).map Prod.fst = l.map Prod.fst := by
  simp only [demote, List.map_map]
  refine List.map_congr_left fun p _ => ?_
  by_cases hk : p.1 = d <;> simp [hk]

theorem masterCount_promote_eq (d : Nat) (l : List (Nat × DevSt)) :
    masterCount ⟨promote d l⟩ = (l.map Prod.fst).count d := by
  simp only [masterCount]
  induction l with
  | nil => simp [promote]
  | cons p rest ih =>
      simp only [promote, List.map_cons, List.filter_cons] at ih ⊢
      by_cases hk : p.1 = d
      · simp [hk, List.count_cons, ih]
      · simp [hk, List.count_cons, ih]

theorem masterCount_promote (d : Nat) (l : List (Nat × DevSt))
    (h : (l.map Prod.fst).Nodup) :
    masterCount ⟨promote d l⟩ ≤ 1 := by
  rw [masterCount_promote_eq]
  exact List.nodup_iff_count_le_one.mp h d

theorem masterCount_demote (d : Nat) (l : List (Nat × DevSt)) :
    masterCount ⟨demote d l⟩ ≤ masterCount ⟨l⟩ := by
  simp only [masterCount]
  induction l with
  | nil => simp [demote]
  | cons p rest ih =>
      simp only [demote, List.map_cons] at ih ⊢
      by_cases hk : p.1 = d
      · rw [if_pos hk]
        simp only [List.filter_cons]
        rcases hb : p.2.isMaster
        · simp only [hb, Bool.false_eq_true, if_false]
          exact ih
        · simp only [hb, if_true, if_false, Bool.false_eq_true,
            List.length_cons]
          exact Nat.le_succ_of_le ih
      · rw [if_neg hk]
        simp only [List.filter_cons]
        rcases hb : p.2.isMaster
        · simp only [hb, Bool.false_eq_true, if_false]
          exact ih
        · simp only [hb, if_true, List.length_cons]
          exact Nat.succ_le_succ ih

theorem engine_inv (s : EngineState) (h : Reachable s) :
    (s.devices.map Prod.fst).Nodup ∧ masterCount s ≤ 1 := by
  induction h with
  | refl => exact ⟨List.nodup_nil, Nat.le_succ 0⟩
  | tail _ step ih =>
      cases step with
      | handleStatus d isPlaying isOnAir =>
          refine ⟨nodup_keys_setCandidate _ _ _ ih.1, ?_⟩
          rw [masterCount_setCandidate]
          exact ih.2
      | confirmMaster d hc =>
          refine ⟨?_, masterCount_promote _ _ ih.1⟩
          rw [keys_promote]
          exact ih.1
      | graceTimeout d hm hc =>
          refine ⟨?_, Nat.le_trans (masterCount_demote _ _) ih.2⟩
          rw [keys_demote]
          exact ih.1

/-- The tag a field is encoded under. -/
def tagOf : Field → FieldType
  | .number t _ _ => t.toFieldType
  | .string _ _ => .String
  | .binary _ => .Binary

/-- Length of the wire header preceding the payload: the tag byte alone
for fixed fields, tag plus 4-byte length for variable fields. -/
def headerLen : Field → Nat
  | .number _ _ _ => 1
  | .string _ _ => 5
  | .binary _ => 5

/-- A valid field value: a number field holds an in-range value with its
exact big-endian data, a string field holds UTF-16 code units with their
big-endian encoding as data, and variable data fits the 32-bit length. -/
abbrev validValue : Field → Prop
  | .number t v d => v < 256 ^ t.bytes ∧ d = beBytes t.bytes v
  | .string v d =>
      (∀ u ∈ v, u < 2 ^ 16) ∧ d = utf16beEncode v ∧ d.length < 2 ^ 32
  | .binary d => d.length < 2 ^ 32

/-- A well-formed wire byte sequence: a known tag followed by a payload of
the exact declared size (with, for variable fields, the 4-byte big-endian
length of the payload in between, and an even payload for `String`). -/
abbrev wellFormedWire (bytes : List Nat) : Prop :=
  (∀ b ∈ bytes, b < 256) ∧
  ((∃ t : NumberFieldType, ∃ p,
      bytes = t.toFieldType.tagByte :: p ∧ p.length = t.bytes) ∨
   (∃ p, bytes = FieldType.String.tagByte :: beBytes 4 p.length ++ p ∧
      p.length % 2 = 0 ∧ p.length < 2 ^ 32) ∨
   (∃ p, bytes = FieldType.Binary.tagByte :: beBytes 4 p.length ++ p ∧
      p.length < 2 ^ 32))

/-- The byte count `readField` will try to read as payload under tag `t`
when the declared count is `n` (fixed by the tag for number fields). -/
abbrev declaredSize (t : FieldType) (n : Nat) : Prop :=
  match bytesToReadOf t with
  | some k => n = k
  | none => True

/-- The wire header announcing a payload of `n` bytes under tag `t`. -/
def wireHeader (t : FieldType) (n : Nat) : List Nat :=
  match bytesToReadOf t with
  | some _ => [t.tagByte]
  | none => t.tagByte :: beBytes 4 n

theorem bytesToReadOf_num (t : NumberFieldType) :
    bytesToReadOf t.toFieldType = some t.bytes := by
  cases t <;> rfl

theorem read_beBytes4 (n : Nat) (rest : List Nat) :
    read (beBytes 4 n ++ rest) 4 = (.ok (beBytes 4 n), rest) := by
  have h := read_append (beBytes 4 n) rest
  rwa [beBytes_length] at h

theorem drop_header5 (b : Nat) (l₁ l₂ : List Nat) (h : l₁.length = 4) :
    (b :: l₁ ++ l₂).drop 5 = l₂ := by
  have h5 : (b :: l₁).length = 5 := by simp [h]
  rw [← h5, List.drop_left]

/-- C4 (counterexample): the claim says decoding a UInt8 field fails with
`MalformedField` whenever the payload length is not exactly 1 byte, but
the source's `parseNumber` never checks the buffer length from above:
decoding the 2-byte payload `[5, 6]` as UInt8 succeeds, with the value
read from the first byte and the whole 2-byte buffer kept as data. -/
theorem decode_uint8_oversize_accepted :
    decodeField .UInt8 [5, 6] = .ok (.number .UInt8 5 [5, 6]) ∧
    ([5, 6] : List Nat).length ≠ 1 :=
  ⟨rfl, by decide⟩

/-- C4 (amended): decoding a UInt8/16/32 field from a payload `p` fails
with `MalformedField` exactly when `p` is SHORTER than the 1/2/4-byte
width; when at least that many bytes are present the value is the
big-endian unsigned integer of the first 1/2/4 bytes of `p` (and `p`
itself, however long, becomes the field data). -/
theorem decode_number_length_check (t : NumberFieldType) (p : List Nat) :
    decodeField t.toFieldType p =
      if t.bytes ≤ p.length then
        .ok (.number t (beRead (p.take t.bytes)) p)
      else .error .malformedField :=
  (decodeField_num t p).trans (makeNumberField_inr t p)

/-- C9: decoding a String field from a payload buffer raises an error
exactly when the payload's byte length is odd (the `swap16` byte swap
requires an even number of bytes); every even-length payload, the empty
one included, decodes to the big-endian UTF-16 string, and no string
value is ever produced from an odd-length payload. -/
theorem decode_string_parity (p : List Nat) :
    decodeField .String p =
      if p.length % 2 = 0 then .ok (.string (utf16beDecode p) p)
      else .error .invalidBufferSize := rfl

/-- C10 (counterexample): the claim says every successfully constructed
number field has a data buffer of exactly 1/2/4 bytes, but constructing a
UInt8 field from the 2-byte buffer `[0, 0]` succeeds and keeps the whole
2-byte buffer as data. -/
theorem uint8_from_long_buffer_accepted :
    makeNumberField .UInt8 (.inr [0, 0]) = .ok (.number .UInt8 0 [0, 0]) ∧
    ([0, 0] : List Nat).length ≠ 1 :=
  ⟨rfl, by decide⟩

/-- C10 (amended): constructing a UInt8/16/32 field from a NUMBER outside
`[0, 2 ^ N - 1]` for its width fails rather than silently truncating, and
every number field successfully constructed from a number has its value
within the width's range and a data buffer of exactly 1/2/4 bytes (a
field constructed from an oversized buffer, by contrast, keeps the whole
buffer as data). -/
theorem makeNumberField_range_check (t : NumberFieldType) (v : Nat) :
    makeNumberField t (.inl v) =
      (if v < 256 ^ t.bytes then .ok (.number t v (beBytes t.bytes v))
       else .error .malformedField) ∧
    (beBytes t.bytes v).length = t.bytes :=
  ⟨makeNumberField_inl t v, beBytes_length t.bytes v⟩

/-- C3 (code bug): the claim says that when the read tag equals
`expectedType` — for every FieldType, including String — the type check
passes.  The source's `String` class, however, declares its `type`
property WITHOUT the `static` keyword (unlike `BaseField`'s declaration
and the other four classes), so `readField`'s static `Field.type` lookup
finds `undefined` and the `expect` comparison fails even against an equal
tag: on a well-formed String wire record with `expect = String` the call
fails with `UnexpectedFieldType` after consuming only the 1-byte tag. -/
theorem readField_string_expect_rejected :
    readField [0x26, 0, 0, 0, 2, 0, 72] (some .String) =
      (.error .unexpectedFieldType, [0, 0, 0, 2, 0, 72]) := rfl

/-- C6: on every stream whose first byte is not one of the five known
field tags (0x0f, 0x10, 0x11, 0x26, 0x14), and for every `expect`
argument, `readField` fails with `UnknownFieldType` (the source crashes
on the `undefined` `fieldMap` entry) and never returns a field; only the
1-byte tag has been consumed. -/
theorem readField_unknown_tag (b : Nat) (s : List Nat)
    (expect : Option FieldType)
    (h : b ∉ [0x0f, 0x10, 0x11, 0x26, 0x14]) :
    readField (b :: s) expect = (.error .unknownFieldType, s) := by
  have hc : fieldClassOf b = none := by
    simp only [List.mem_cons, List.not_mem_nil, or_false, not_or] at h
    rw [fieldClassOf, if_neg h.1, if_neg h.2.1, if_neg h.2.2.1,
      if_neg h.2.2.2.1, if_neg h.2.2.2.2]
  rw [readField_cons, hc]

theorem readField_unknown_tag_witness :
    readField (0x99 :: [1, 2]) none = (.error .unknownFieldType, [1, 2]) :=
  readField_unknown_tag 0x99 [1, 2] none (by decide)

/-- C2: for every FieldType, `readField` over a stream that ends before
the declared payload byte count is fully available (the header announces
`n` payload bytes but fewer remain) fails with `TruncatedStream` and
never returns a field built from short or partial data.  The byte source
follows the spec-section-6 contract of reading exactly N bytes or
failing. -/
theorem readField_truncation_safe (t : FieldType) (n : Nat) (p : List Nat)
    (hn : declaredSize t n) (hlen : p.length < n) (h32 : n < 2 ^ 32) :
    readField (wireHeader t n ++ p) none = (.error .truncatedStream, p) := by
  have h32' : n < 256 ^ 4 := by norm_num at h32 ⊢; exact h32
  cases t with
  | UInt8 =>
      simp only [declaredSize, bytesToReadOf] at hn
      subst hn
      rw [show wireHeader .UInt8 1 ++ p = 0x0f :: p from rfl, readField_cons,
        show fieldClassOf 0x0f = some .UInt8 from rfl]
      show readFieldRest .UInt8 p = _
      simp only [readFieldRest, bytesToReadOf]
      rw [read_short p 1 hlen]
  | UInt16 =>
      simp only [declaredSize, bytesToReadOf] at hn
      subst hn
      rw [show wireHeader .UInt16 2 ++ p = 0x10 :: p from rfl, readField_cons,
        show fieldClassOf 0x10 = some .UInt16 from rfl]
      show readFieldRest .UInt16 p = _
      simp only [readFieldRest, bytesToReadOf]
      rw [read_short p 2 hlen]
  | UInt32 =>
      simp only [declaredSize, bytesToReadOf] at hn
      subst hn
      rw [show wireHeader .UInt32 4 ++ p = 0x11 :: p from rfl, readField_cons,
        show fieldClassOf 0x11 = some .UInt32 from rfl]
      show readFieldRest .UInt32 p = _
      simp only [readFieldRest, bytesToReadOf]
      rw [read_short p 4 hlen]
  | String =>
      rw [show wireHeader .String n ++ p = 0x26 :: (beBytes 4 n ++ p) from rfl,
        readField_cons, show fieldClassOf 0x26 = some .String from rfl]
      show readFieldRest .String (beBytes 4 n ++ p) = _
      simp only [readFieldRest, bytesToReadOf]
      rw [read_beBytes4]
      dsimp only
      rw [beRead_beBytes 4 n h32', read_short p n hlen]
  | Binary =>
      rw [show wireHeader .Binary n ++ p = 0x14 :: (beBytes 4 n ++ p) from rfl,
        readField_cons, show fieldClassOf 0x14 = some .Binary from rfl]
      show readFieldRest .Binary (beBytes 4 n ++ p) = _
      simp only [readFieldRest, bytesToReadOf]
      rw [read_beBytes4]
      dsimp only
      rw [beRead_beBytes 4 n h32', read_short p n hlen]

theorem readField_truncation_safe_witness :
    readField (wireHeader .UInt32 4 ++ [0, 0, 0]) none =
      (.error .truncatedStream, [0, 0, 0]) :=
  readField_truncation_safe .UInt32 4 [0, 0, 0] rfl (by decide) (by decide)

/-- C5: `encode` produces exactly the specified wire layout: a UInt8/16/32
field with its exact-width data is the tag byte followed by the big-endian
value bytes, exactly `1 + N` bytes with `N` in {1, 2, 4}; a String or
Binary field is the tag byte, a 4-byte big-endian length equal to the
payload length (covering only the payload), then the payload — a 5-byte
header followed by the payload. -/
theorem encode_wire_layout (f : Field) :
    match f with
    | .number t _ d => d.length = t.bytes →
        f.buffer = some (t.toFieldType.tagByte :: d) ∧
        (t.toFieldType.tagByte :: d).length = 1 + t.bytes
    | .string _ d => d.length < 2 ^ 32 →
        f.buffer = some (FieldType.String.tagByte :: beBytes 4 d.length ++ d) ∧
        (beBytes 4 d.length).length = 4
    | .binary d => d.length < 2 ^ 32 →
        f.buffer = some (FieldType.Binary.tagByte :: beBytes 4 d.length ++ d) ∧
        (beBytes 4 d.length).length = 4 := by
  cases f with
  | number t v d =>
      intro hd
      exact ⟨rfl, by simp [hd, Nat.add_comm]⟩
  | string v d =>
      intro h32
      refine ⟨?_, beBytes_length 4 _⟩
      rw [show Field.buffer (.string v d) = makeVariableBuffer .String d
          from rfl, makeVariableBuffer, if_pos h32]
  | binary d =>
      intro h32
      refine ⟨?_, beBytes_length 4 _⟩
      rw [show Field.buffer (.binary d) = makeVariableBuffer .Binary d
          from rfl, makeVariableBuffer, if_pos h32]

theorem encode_wire_layout_witness :
    Field.buffer (.binary [7, 8, 9]) =
        some (FieldType.Binary.tagByte ::
          beBytes 4 ([7, 8, 9] : List Nat).length ++ [7, 8, 9]) ∧
    (beBytes 4 ([7, 8, 9] : List Nat).length).length = 4 :=
  encode_wire_layout (.binary [7, 8, 9]) (by decide)

/-- C7: a track-loaded emission for a device happens exactly when the
incoming `trackId` differs from the one recorded for that device (an
unseen device always differs), and feeding `N ≥ 1` consecutive statuses
with an unchanged `trackId` for one device emits exactly once, on the
first status, and never on the repeats. -/
theorem trackLoaded_dedup :
    (∀ m d tid, (statusHandler m d tid).2 = true ↔
        lastTidGet d m ≠ some tid) ∧
    (∀ m d tid n, lastTidGet d m ≠ some tid →
        runStatuses m (List.replicate (n + 1) (d, tid)) = [(d, tid)]) := by
  constructor
  · intro m d tid
    rw [statusHandler]
    by_cases h : lastTidGet d m = some tid
    · simp [h]
    · simp [h]
  · intro m d tid n h
    rw [List.replicate_succ, runStatuses]
    simp only [statusHandler, if_neg h]
    rw [runStatuses_unchanged d tid n _ (lastTidGet_set_self d tid m)]
    simp

theorem trackLoaded_dedup_witness :
    ((statusHandler [] 1 100).2 = true ↔ lastTidGet 1 [] ≠ some 100) ∧
    runStatuses [] (List.replicate 3 (1, 100)) = [(1, 100)] :=
  ⟨trackLoaded_dedup.1 [] 1 100, trackLoaded_dedup.2 [] 1 100 2 (by decide)⟩

/-- C8: in every reachable state of the mixstatus engine, at most one
device holds the `master` role, and no device is master in the initial
state, before any status has been processed. -/
theorem master_arbitration_invariant :
    masterCount initialEngineState = 0 ∧
    ∀ s : EngineState, Reachable s → masterCount s ≤ 1 :=
  ⟨rfl, fun s h => (engine_inv s h).2⟩

theorem master_arbitration_invariant_witness :
    masterCount initialEngineState = 0 ∧
    masterCount ⟨promote 1 (setCandidate 1 true [])⟩ ≤ 1 :=
  ⟨master_arbitration_invariant.1,
   master_arbitration_invariant.2 _
     (Relation.ReflTransGen.tail
       (Relation.ReflTransGen.tail Relation.ReflTransGen.refl
         (EngineStep.handleStatus initialEngineState 1 true true))
       (EngineStep.confirmMaster ⟨setCandidate 1 (true && true) []⟩ 1
         (by decide)))⟩

/-- C1: the round-trip law.  (1) For every valid `Field` value — number
fields with in-range values (boundaries 0, 255, 65535 and 4294967295
included), strings of UTF-16 code units (multi-byte surrogate pairs and
the empty string included) and binaries (the empty one included) —
decoding the payload of `encode(v)` under `v`'s tag yields `v` again.
(2) For every well-formed wire byte sequence, decoding it (via
`readField`, which consumes it exactly) and re-encoding reproduces the
same bytes. -/
theorem field_round_trip :
    (∀ f : Field, validValue f →
        ∃ w, f.buffer = some w ∧
          decodeField (tagOf f) (w.drop (headerLen f)) = .ok f) ∧
    (∀ bytes : List Nat, wellFormedWire bytes →
        ∃ f : Field, readField bytes none = (.ok f, []) ∧
          f.buffer = some bytes) := by
  constructor
  · intro f hv
    cases f with
    | number t v d =>
        obtain ⟨hvlt, hd⟩ := hv
        refine ⟨t.toFieldType.tagByte :: d, rfl, ?_⟩
        show decodeField t.toFieldType ((t.toFieldType.tagByte :: d).drop 1) = _
        rw [show (t.toFieldType.tagByte :: d).drop 1 = d from rfl,
          decodeField_num, makeNumberField_inr]
        have hlen : d.length = t.bytes := by rw [hd, beBytes_length]
        rw [if_pos (le_of_eq hlen.symm), ← hlen, List.take_length, hd,
          beRead_beBytes _ _ hvlt]
    | string v d =>
        obtain ⟨hu, hd, h32⟩ := hv
        refine ⟨FieldType.String.tagByte :: beBytes 4 d.length ++ d, ?_, ?_⟩
        · rw [show Field.buffer (.string v d) = makeVariableBuffer .String d
              from rfl, makeVariableBuffer, if_pos h32]
        · show decodeField .String
            ((FieldType.String.tagByte :: beBytes 4 d.length ++ d).drop 5) = _
          rw [drop_header5 _ _ _ (beBytes_length 4 d.length),
            show decodeField .String d = stringFromBuffer d from rfl,
            stringFromBuffer]
          have heven : d.length % 2 = 0 := by
            rw [hd, utf16beEncode_length]; omega
          rw [if_pos heven, hd, utf16_decode_encode]
    | binary d =>
        refine ⟨FieldType.Binary.tagByte :: beBytes 4 d.length ++ d, ?_, ?_⟩
        · rw [show Field.buffer (.binary d) = makeVariableBuffer .Binary d
              from rfl, makeVariableBuffer, if_pos hv]
        · show decodeField .Binary
            ((FieldType.Binary.tagByte :: beBytes 4 d.length ++ d).drop 5) = _
          rw [drop_header5 _ _ _ (beBytes_length 4 d.length)]
          rfl
  · intro bytes hwf
    obtain ⟨-, hcase⟩ := hwf
    rcases hcase with ⟨t, p, hbytes, hlen⟩ | ⟨p, hbytes, heven, h32⟩ |
      ⟨p, hbytes, h32⟩
    · subst hbytes
      refine ⟨.number t (beRead p) p, ?_, rfl⟩
      rw [readField_cons, fieldClassOf_tagByte]
      show readFieldRest t.toFieldType p = _
      simp only [readFieldRest, bytesToReadOf_num]
      rw [← hlen, read_exact]
      dsimp only
      rw [decodeField_num, makeNumberField_inr, if_pos (le_of_eq hlen.symm)]
      rw [← hlen, List.take_length]
    · subst hbytes
      have h32' : p.length < 256 ^ 4 := by norm_num at h32 ⊢; exact h32
      refine ⟨.string (utf16beDecode p) p, ?_, ?_⟩
      · rw [List.cons_append, readField_cons,
          show fieldClassOf FieldType.String.tagByte = some .String from rfl]
        show readFieldRest .String (beBytes 4 p.length ++ p) = _
        simp only [readFieldRest, bytesToReadOf]
        rw [read_beBytes4]
        dsimp only
        rw [beRead_beBytes 4 p.length h32', read_exact]
        dsimp only
        rw [show decodeField .String p = stringFromBuffer p from rfl,
          stringFromBuffer, if_pos heven]
      · rw [show Field.buffer (.string (utf16beDecode p) p) =
            makeVariableBuffer .String p from rfl, makeVariableBuffer,
          if_pos h32]
    · subst hbytes
      refine ⟨.binary p, ?_, ?_⟩
      · rw [List.cons_append, readField_cons,
          show fieldClassOf FieldType.Binary.tagByte = some .Binary from rfl]
        show readFieldRest .Binary (beBytes 4 p.length ++ p) = _
        simp only [readFieldRest, bytesToReadOf]
        rw [read_beBytes4]
        dsimp only
        have h32' : p.length < 256 ^ 4 := by norm_num at h32 ⊢; exact h32
        rw [beRead_beBytes 4 p.length h32', read_exact]
        rfl
      · rw [show Field.buffer (.binary p) = makeVariableBuffer .Binary p
            from rfl, makeVariableBuffer, if_pos h32]

theorem field_round_trip_witness :
    (∃ w, Field.buffer (.string [0xD83D, 0xDE00] [0xD8, 0x3D, 0xDE, 0x00]) =
        some w ∧
      decodeField (tagOf (.string [0xD83D, 0xDE00] [0xD8, 0x3D, 0xDE, 0x00]))
          (w.drop (headerLen
            (.string [0xD83D, 0xDE00] [0xD8, 0x3D, 0xDE, 0x00]))) =
        .ok (.string [0xD83D, 0xDE00] [0xD8, 0x3D, 0xDE, 0x00])) ∧
    (∃ f, readField [0x0f, 255] none = (.ok f, []) ∧
      Field.buffer f = some [0x0f, 255]) :=
  ⟨field_round_trip.1 _ (by decide),
   field_round_trip.2 [0x0f, 255]
     ⟨by decide, Or.inl ⟨.UInt8, [255], rfl, rfl⟩⟩⟩

end Prolink
